import Mathlib

set_option autoImplicit false

namespace PyUpgrader

/-- Decidable equality of Except values, used to evaluate the embedded
functions at concrete inputs. -/
def exceptDecEq {ε α : Type} [DecidableEq ε] [DecidableEq α] :
    DecidableEq (Except ε α) := fun a b =>
  match a, b with
  | .error e1, .error e2 =>
    if h : e1 = e2 then isTrue (by rw [h])
    else isFalse (fun hc => h (by injection hc))
  | .ok v1, .ok v2 =>
    if h : v1 = v2 then isTrue (by rw [h])
    else isFalse (fun hc => h (by injection hc))
  | .error _, .ok _ => isFalse (fun hc => Except.noConfusion hc)
  | .ok _, .error _ => isFalse (fun hc => Except.noConfusion hc)

instance {ε α : Type} [DecidableEq ε] [DecidableEq α] :
    DecidableEq (Except ε α) := exceptDecEq

/-! Shallow embedding of PyUpgrader (pyupgrader/update.py,
pyupgrader/utilities/hashing.py, pyupgrader/utilities/file_updater.py,
pyupgrader/utilities/helper.py) and proofs about it. -/

/-! ## Hash databases (pyupgrader/utilities/hashing.py)

A hash database is the sqlite table `hashes (file_path TEXT PRIMARY KEY,
calculated_hash TEXT)`; we model the result of
`SELECT file_path, calculated_hash FROM hashes` as a list of rows. -/

/-- A row of the hashes table: (file_path, calculated_hash). -/
abbrev HashRow := String × String

/-- The rows of one hash database. -/
abbrev HashRows := List HashRow

/-- Lookup in the Python dict `{row[0]: row[1] for row in cursor.fetchall()}`:
later rows overwrite earlier ones, so the value of the last row with the
given key wins. -/
def dictLookup (rows : HashRows) (p : String) : Option String :=
  (rows.reverse.find? (fun r => r.1 == p)).map Prod.snd

/-- Python dict item access `d[file_path]` for paths taken from the key set;
the default is unreachable there because the lookup succeeds on every key. -/
def dictGet (rows : HashRows) (p : String) : String :=
  (dictLookup rows p).getD ""

/-- The key set `set(d.keys())` of the dict built from the rows. -/
def dbKeys (rows : HashRows) : Finset String :=
  (rows.map Prod.fst).toFinset

/-- Dataclass hashing.DBSummary.  The source stores the four collections as
lists built from sets and set comprehensions; we model each collection as
the underlying set. -/
structure DBSummary where
  unique_files_local_db : Finset String
  unique_files_cloud_db : Finset String
  ok_files : Finset (String × String)
  bad_files : Finset (String × String × String)
deriving DecidableEq

/-- hashing.compare_databases: builds the two path-to-hash dicts, takes the
intersection and the two differences of their key sets, and splits the
common paths by hash equality, pairing ok paths with the local hash and bad
paths with both hashes. -/
def compare_databases (db1 db2 : HashRows) : DBSummary :=
  let common_files := dbKeys db1 ∩ dbKeys db2
  { unique_files_local_db := dbKeys db1 \ dbKeys db2
    unique_files_cloud_db := dbKeys db2 \ dbKeys db1
    ok_files :=
      (common_files.filter (fun p => dictLookup db1 p = dictLookup db2 p)).image
        (fun p => (p, dictGet db1 p))
    bad_files :=
      (common_files.filter (fun p => dictLookup db1 p ≠ dictLookup db2 p)).image
        (fun p => (p, dictGet db1 p, dictGet db2 p)) }

theorem unique_local_eq (db1 db2 : HashRows) :
    (compare_databases db1 db2).unique_files_local_db = dbKeys db1 \ dbKeys db2 := rfl

theorem unique_cloud_eq (db1 db2 : HashRows) :
    (compare_databases db1 db2).unique_files_cloud_db = dbKeys db2 \ dbKeys db1 := rfl

/-- The path set of ok_files is the common paths whose hashes agree. -/
theorem ok_files_paths (db1 db2 : HashRows) :
    (compare_databases db1 db2).ok_files.image Prod.fst =
      (dbKeys db1 ∩ dbKeys db2).filter
        (fun p => dictLookup db1 p = dictLookup db2 p) := by
  classical
  simp only [compare_databases, Finset.image_image]
  exact (Finset.image_congr fun p _ => rfl).trans Finset.image_id

/-- The path set of bad_files is the common paths whose hashes differ. -/
theorem bad_files_paths (db1 db2 : HashRows) :
    (compare_databases db1 db2).bad_files.image Prod.fst =
      (dbKeys db1 ∩ dbKeys db2).filter
        (fun p => dictLookup db1 p ≠ dictLookup db2 p) := by
  classical
  simp only [compare_databases, Finset.image_image]
  exact (Finset.image_congr fun p _ => rfl).trans Finset.image_id

/-- C1: For every pair of hash databases, the four collections returned by
compare_databases are pairwise disjoint by path, and the union of their
paths equals the union of the path keys of the two databases. -/
theorem compare_databases_partition (db1 db2 : HashRows) :
    Disjoint (compare_databases db1 db2).unique_files_local_db
        (compare_databases db1 db2).unique_files_cloud_db ∧
    Disjoint (compare_databases db1 db2).unique_files_local_db
        ((compare_databases db1 db2).ok_files.image Prod.fst) ∧
    Disjoint (compare_databases db1 db2).unique_files_local_db
        ((compare_databases db1 db2).bad_files.image Prod.fst) ∧
    Disjoint (compare_databases db1 db2).unique_files_cloud_db
        ((compare_databases db1 db2).ok_files.image Prod.fst) ∧
    Disjoint (compare_databases db1 db2).unique_files_cloud_db
        ((compare_databases db1 db2).bad_files.image Prod.fst) ∧
    Disjoint ((compare_databases db1 db2).ok_files.image Prod.fst)
        ((compare_databases db1 db2).bad_files.image Prod.fst) ∧
    (compare_databases db1 db2).unique_files_local_db ∪
        (compare_databases db1 db2).unique_files_cloud_db ∪
        (compare_databases db1 db2).ok_files.image Prod.fst ∪
        (compare_databases db1 db2).bad_files.image Prod.fst =
      dbKeys db1 ∪ dbKeys db2 := by
  classical
  rw [unique_local_eq, unique_cloud_eq, ok_files_paths, bad_files_paths]
  refine ⟨?_, ?_, ?_, ?_, ?_, ?_, ?_⟩
  · rw [Finset.disjoint_left]
    intro a ha hb
    simp only [Finset.mem_sdiff] at ha hb
    tauto
  · rw [Finset.disjoint_left]
    intro a ha hb
    simp only [Finset.mem_sdiff, Finset.mem_filter, Finset.mem_inter] at ha hb
    tauto
  · rw [Finset.disjoint_left]
    intro a ha hb
    simp only [Finset.mem_sdiff, Finset.mem_filter, Finset.mem_inter] at ha hb
    tauto
  · rw [Finset.disjoint_left]
    intro a ha hb
    simp only [Finset.mem_sdiff, Finset.mem_filter, Finset.mem_inter] at ha hb
    tauto
  · rw [Finset.disjoint_left]
    intro a ha hb
    simp only [Finset.mem_sdiff, Finset.mem_filter, Finset.mem_inter] at ha hb
    tauto
  · rw [Finset.disjoint_left]
    intro a ha hb
    simp only [Finset.mem_filter, Finset.mem_inter] at ha hb
    tauto
  · ext p
    simp only [Finset.mem_union, Finset.mem_sdiff, Finset.mem_filter,
      Finset.mem_inter]
    by_cases h1 : p ∈ dbKeys db1 <;> by_cases h2 : p ∈ dbKeys db2 <;>
      by_cases h3 : dictLookup db1 p = dictLookup db2 p <;> tauto

/-- C9: compare_databases is symmetric: swapping the databases swaps the two
unique sets, keeps the matching and mismatched path sets identical, keeps
the matching pairs identical, and swaps the two fingerprints of each
mismatched triple. -/
theorem compare_databases_symmetric (db1 db2 : HashRows) :
    (compare_databases db1 db2).unique_files_local_db
        = (compare_databases db2 db1).unique_files_cloud_db ∧
    (compare_databases db1 db2).unique_files_cloud_db
        = (compare_databases db2 db1).unique_files_local_db ∧
    (compare_databases db1 db2).ok_files.image Prod.fst
        = (compare_databases db2 db1).ok_files.image Prod.fst ∧
    (compare_databases db1 db2).bad_files.image Prod.fst
        = (compare_databases db2 db1).bad_files.image Prod.fst ∧
    (compare_databases db1 db2).ok_files
        = (compare_databases db2 db1).ok_files ∧
    (compare_databases db1 db2).bad_files
        = (compare_databases db2 db1).bad_files.image
            (fun t => (t.1, t.2.2, t.2.1)) := by
  classical
  have hcommon : dbKeys db2 ∩ dbKeys db1 = dbKeys db1 ∩ dbKeys db2 :=
    Finset.inter_comm _ _
  have hokset :
      (dbKeys db2 ∩ dbKeys db1).filter
          (fun p => dictLookup db2 p = dictLookup db1 p) =
        (dbKeys db1 ∩ dbKeys db2).filter
          (fun p => dictLookup db1 p = dictLookup db2 p) := by
    ext p
    simp only [Finset.mem_filter, Finset.mem_inter]
    exact ⟨fun h => ⟨⟨h.1.2, h.1.1⟩, h.2.symm⟩, fun h => ⟨⟨h.1.2, h.1.1⟩, h.2.symm⟩⟩
  have hbadset :
      (dbKeys db2 ∩ dbKeys db1).filter
          (fun p => dictLookup db2 p ≠ dictLookup db1 p) =
        (dbKeys db1 ∩ dbKeys db2).filter
          (fun p => dictLookup db1 p ≠ dictLookup db2 p) := by
    ext p
    simp only [Finset.mem_filter, Finset.mem_inter]
    exact ⟨fun h => ⟨⟨h.1.2, h.1.1⟩, fun he => h.2 he.symm⟩,
      fun h => ⟨⟨h.1.2, h.1.1⟩, fun he => h.2 he.symm⟩⟩
  have hokeq :
      ∀ p ∈ (dbKeys db1 ∩ dbKeys db2).filter
          (fun p => dictLookup db1 p = dictLookup db2 p),
        dictGet db2 p = dictGet db1 p := by
    intro p hp
    simp only [Finset.mem_filter] at hp
    simp [dictGet, hp.2]
  refine ⟨rfl, rfl, ?_, ?_, ?_, ?_⟩
  · rw [ok_files_paths, ok_files_paths, hokset]
  · rw [bad_files_paths, bad_files_paths, hbadset]
  · simp only [compare_databases]
    rw [hokset]
    refine Finset.image_congr ?_
    intro p hp
    rw [Finset.mem_coe] at hp
    show (p, dictGet db1 p) = (p, dictGet db2 p)
    rw [hokeq p hp]
  · simp only [compare_databases]
    rw [Finset.image_image, hbadset]
    rfl

/-! ## Release config and version check (pyupgrader/update.py) -/

/-- The six required keys of a config.yaml document, as enforced by
helper.Config._valid_config: missing any of them is a load failure. -/
structure Config where
  version : String
  description : String
  hash_db : String
  startup_path : String
  required_only : Bool
  cleanup : Bool
deriving DecidableEq

/-- Split a character list on the dots, as for the components of a dotted
version string. -/
def splitDots : List Char → List (List Char)
  | [] => [[]]
  | c :: rest =>
    if c = '.' then [] :: splitDots rest
    else
      match splitDots rest with
      | [] => [[c]]
      | h :: t => (c :: h) :: t

/-- Read one nonempty all-digit component as a decimal number. -/
def parseComponent (cs : List Char) : Option Nat :=
  if cs ≠ [] ∧ cs.all Char.isDigit then
    some (cs.foldl (fun acc c => acc * 10 + (c.toNat - 48)) 0)
  else none

/-- The release component list of a version string such as "1.2.3".
Modelled from packaging.version.Version restricted to its release segment,
the only segment the version fields of this repository use; a string that
does not parse raises InvalidVersion. -/
def parseVersion (s : String) : Option (List Nat) :=
  (splitDots s.toList).mapM parseComponent

/-- The comparison key of a release list: packaging drops trailing zero
components before comparing, so "1.0" and "1.0.0" compare equal. -/
def releaseKey (v : List Nat) : List Nat :=
  (v.reverse.dropWhile (fun n => n == 0)).reverse

/-- Lexicographic strict order on release component tuples. -/
def releaseLtB : List Nat → List Nat → Bool
  | [], [] => false
  | [], _ :: _ => true
  | _ :: _, [] => false
  | a :: as, b :: bs => decide (a < b) || (a == b && releaseLtB as bs)

/-- Strict packaging.version ordering on parsed versions. -/
def versionLt (v w : List Nat) : Bool :=
  releaseLtB (releaseKey v) (releaseKey w)

theorem releaseLtB_irrefl (v : List Nat) : releaseLtB v v = false := by
  induction v with
  | nil => rfl
  | cons a as ih => simp [releaseLtB, ih]

/-- The dict returned by UpdateManager.check_update. -/
structure CheckResult where
  has_update : Bool
  description : String
  web_version : String
  local_version : String
deriving DecidableEq

/-- Raised by packaging.version.Version on an unparsable version string. -/
inductive InvalidVersion where
  | invalidVersion : InvalidVersion
deriving DecidableEq

/-- UpdateManager.check_update: parse the version fields of the cloud and
local configs and report an update exactly when the web version is
strictly greater; the description comes from the web config when an update
is reported and from the local config otherwise. -/
def check_update (web_config local_config : Config) :
    Except InvalidVersion CheckResult :=
  match parseVersion web_config.version, parseVersion local_config.version with
  | some web_version, some local_version =>
      if versionLt local_version web_version then
        .ok { has_update := true, description := web_config.description,
              web_version := web_config.version,
              local_version := local_config.version }
      else
        .ok { has_update := false, description := local_config.description,
              web_version := web_config.version,
              local_version := local_config.version }
  | _, _ => .error .invalidVersion

/-- Reduction of check_update once both version fields parse. -/
theorem check_update_eq (web_config local_config : Config) (wv lv : List Nat)
    (hw : parseVersion web_config.version = some wv)
    (hl : parseVersion local_config.version = some lv) :
    check_update web_config local_config =
      if versionLt lv wv = true then
        .ok { has_update := true, description := web_config.description,
              web_version := web_config.version,
              local_version := local_config.version }
      else
        .ok { has_update := false, description := local_config.description,
              web_version := web_config.version,
              local_version := local_config.version } := by
  unfold check_update
  rw [hw, hl]

/-- C3: check_update reports has_update exactly when the remote version is
strictly greater than the local version in semantic-version order; equal
version keys never report an update; and the order used is the semantic
one, not the string one: on web "10.0.0" against local "9.0.0" an update
is reported although lexicographic character order puts "10.0.0" below
"9.0.0". -/
theorem check_update_version_ordering :
    (∀ (web_config local_config : Config) (wv lv : List Nat),
        parseVersion web_config.version = some wv →
        parseVersion local_config.version = some lv →
        ∃ r, check_update web_config local_config = .ok r ∧
          (r.has_update = true ↔ versionLt lv wv = true) ∧
          (releaseKey wv = releaseKey lv → r.has_update = false)) ∧
    (∀ web_config local_config : Config,
        web_config.version = "10.0.0" → local_config.version = "9.0.0" →
        ∃ r, check_update web_config local_config = .ok r ∧
          r.has_update = true) ∧
    List.Lex (· < ·) "10.0.0".data "9.0.0".data := by
  refine ⟨?_, ?_, by decide⟩
  · intro web_config local_config wv lv hw hl
    rw [check_update_eq web_config local_config wv lv hw hl]
    by_cases hv : versionLt lv wv = true
    · rw [if_pos hv]
      refine ⟨_, rfl, ?_, ?_⟩
      · simp [hv]
      · intro hkey
        exfalso
        rw [versionLt, hkey, releaseLtB_irrefl] at hv
        cases hv
    · rw [if_neg hv]
      refine ⟨_, rfl, ?_, fun _ => rfl⟩
      simpa using hv
  · intro web_config local_config hw hl
    rw [check_update_eq web_config local_config [10, 0, 0] [9, 0, 0]
      (by rw [hw]; decide) (by rw [hl]; decide), if_pos (by decide)]
    refine ⟨_, rfl, ?_⟩
    rfl

/-- Witness for C3 at the configs with versions "1.0.1" and "1.0.0". -/
theorem check_update_version_ordering_witness :
    ∃ r, check_update ⟨"1.0.1", "w", "h", "s", true, true⟩
        ⟨"1.0.0", "l", "h", "s", true, true⟩ = .ok r ∧
      (r.has_update = true ↔ versionLt [1, 0, 0] [1, 0, 1] = true) ∧
      (releaseKey [1, 0, 1] = releaseKey [1, 0, 0] → r.has_update = false) :=
  check_update_version_ordering.1 _ _ [1, 0, 1] [1, 0, 0] (by decide) (by decide)

/-- C10: the description of the check_update result is the web config
description exactly when has_update is true, and the local config
description when it is false. -/
theorem check_update_description (web_config local_config : Config)
    (r : CheckResult)
    (h : check_update web_config local_config = .ok r) :
    (r.has_update = true → r.description = web_config.description) ∧
    (r.has_update = false → r.description = local_config.description) := by
  cases hw : parseVersion web_config.version with
  | none =>
    unfold check_update at h
    rw [hw] at h
    exact absurd h (by simp)
  | some wv =>
    cases hl : parseVersion local_config.version with
    | none =>
      unfold check_update at h
      rw [hw, hl] at h
      exact absurd h (by simp)
    | some lv =>
      rw [check_update_eq web_config local_config wv lv hw hl] at h
      by_cases hv : versionLt lv wv = true
      · rw [if_pos hv] at h
        simp only [Except.ok.injEq] at h
        subst h
        exact ⟨fun _ => rfl, fun hfu => Bool.noConfusion hfu⟩
      · rw [if_neg hv] at h
        simp only [Except.ok.injEq] at h
        subst h
        exact ⟨fun hfu => Bool.noConfusion hfu, fun _ => rfl⟩

/-- Witness for C10 at the configs with versions "2.0.0" and "1.9.9". -/
theorem check_update_description_witness :
    ((⟨true, "w", "2.0.0", "1.9.9"⟩ : CheckResult).has_update = true →
      (⟨true, "w", "2.0.0", "1.9.9"⟩ : CheckResult).description = "w") ∧
    ((⟨true, "w", "2.0.0", "1.9.9"⟩ : CheckResult).has_update = false →
      (⟨true, "w", "2.0.0", "1.9.9"⟩ : CheckResult).description = "l") :=
  check_update_description ⟨"2.0.0", "w", "h", "s", true, true⟩
    ⟨"1.9.9", "l", "h", "s", true, true⟩ ⟨true, "w", "2.0.0", "1.9.9"⟩
    (by rw [check_update_eq _ _ [2, 0, 0] [1, 9, 9] (by decide) (by decide),
      if_pos (by decide)])

/-! ## Update planning (UpdateManager.prepare_update and get_files) -/

/-- The path components of bad_files, the list
`[file_path for file_path, _, _ in db_summary.bad_files]` built in
prepare_update and get_files. -/
def badFilePaths (s : DBSummary) : Finset String := s.bad_files.image Prod.fst

/-- Raised by prepare_update when there are no files to update. -/
inductive NoUpdateError where
  | noUpdate : NoUpdateError
deriving DecidableEq

/-- The update and delete entries of the actions file written by
prepare_update. -/
structure UpdatePlan where
  update : Finset String
  delete : Finset String
deriving DecidableEq

/-- Plan construction of UpdateManager.prepare_update, as a function of the
cloud config flag required_only and the two hash databases.  The delete
entry is always the local-only files of the database comparison; the
update entry is the whole cloud file list (get_files(updated_only=False),
the file_path column of the cloud database) when required_only is false,
and the cloud-only files plus the mismatched files when it is true;
NoUpdateError is raised when required_only holds and the computed update
and delete sets are both empty. -/
def prepare_update (required_only : Bool) (localDB cloudDB : HashRows) :
    Except NoUpdateError UpdatePlan :=
  let db_summary := compare_databases localDB cloudDB
  let deleteSet := db_summary.unique_files_local_db
  let updateSet :=
    if required_only then
      db_summary.unique_files_cloud_db ∪ badFilePaths db_summary
    else dbKeys cloudDB
  if required_only = true ∧ updateSet = ∅ ∧ deleteSet = ∅ then
    .error .noUpdate
  else
    .ok { update := updateSet, delete := deleteSet }

/-- C4: whenever prepare_update returns a plan, the delete set is exactly
the local-only paths; the update set is exactly the cloud-only paths
together with the common paths whose fingerprints differ when
required_only is true, and exactly the whole cloud file list when
required_only is false. -/
theorem prepare_update_sets (required_only : Bool)
    (localDB cloudDB : HashRows) (plan : UpdatePlan)
    (h : prepare_update required_only localDB cloudDB = .ok plan) :
    plan.delete = dbKeys localDB \ dbKeys cloudDB ∧
    (required_only = true →
      plan.update = (dbKeys cloudDB \ dbKeys localDB) ∪
        (dbKeys localDB ∩ dbKeys cloudDB).filter
          (fun p => dictLookup localDB p ≠ dictLookup cloudDB p)) ∧
    (required_only = false → plan.update = dbKeys cloudDB) := by
  cases required_only with
  | false =>
    simp only [prepare_update, Bool.false_eq_true, false_and, if_false,
      Bool.ite_eq_false_distrib] at h
    simp only [Except.ok.injEq] at h
    subst h
    exact ⟨rfl, fun hc => Bool.noConfusion hc, fun _ => rfl⟩
  | true =>
    simp only [prepare_update, if_true, true_and] at h
    by_cases hc :
        (compare_databases localDB cloudDB).unique_files_cloud_db ∪
            badFilePaths (compare_databases localDB cloudDB) = ∅ ∧
          (compare_databases localDB cloudDB).unique_files_local_db = ∅
    · rw [if_pos hc] at h
      exact absurd h (by simp)
    · rw [if_neg hc] at h
      simp only [Except.ok.injEq] at h
      subst h
      refine ⟨rfl, fun _ => ?_, fun hf => Bool.noConfusion hf⟩
      show (compare_databases localDB cloudDB).unique_files_cloud_db ∪
          badFilePaths (compare_databases localDB cloudDB) = _
      rw [unique_cloud_eq]
      rw [show badFilePaths (compare_databases localDB cloudDB) =
        (compare_databases localDB cloudDB).bad_files.image Prod.fst from rfl]
      rw [bad_files_paths]

/-- Witness for C4 on two concrete one-row databases. -/
theorem prepare_update_sets_witness :
    ({ update := {"b"}, delete := {"a"} } : UpdatePlan).delete =
        dbKeys [("a", "1")] \ dbKeys [("b", "2")] ∧
    (false = true →
      ({ update := {"b"}, delete := {"a"} } : UpdatePlan).update =
        (dbKeys [("b", "2")] \ dbKeys [("a", "1")]) ∪
          (dbKeys [("a", "1")] ∩ dbKeys [("b", "2")]).filter
            (fun p => dictLookup [("a", "1")] p ≠ dictLookup [("b", "2")] p)) ∧
    (false = false →
      ({ update := {"b"}, delete := {"a"} } : UpdatePlan).update =
        dbKeys [("b", "2")]) :=
  prepare_update_sets false [("a", "1")] [("b", "2")]
    { update := {"b"}, delete := {"a"} } (by decide)

/-- C5: prepare_update raises NoUpdateError exactly when required_only is
true and the computed update and delete sets are both empty; equivalently,
exactly when required_only holds, the two databases have identical path
key sets, and every common path carries the same fingerprint in both. -/
theorem prepare_update_no_update_iff (required_only : Bool)
    (localDB cloudDB : HashRows) :
    (prepare_update required_only localDB cloudDB = .error .noUpdate ↔
      required_only = true ∧
        (compare_databases localDB cloudDB).unique_files_cloud_db ∪
          badFilePaths (compare_databases localDB cloudDB) = ∅ ∧
        (compare_databases localDB cloudDB).unique_files_local_db = ∅) ∧
    (prepare_update required_only localDB cloudDB = .error .noUpdate ↔
      required_only = true ∧ dbKeys localDB = dbKeys cloudDB ∧
        ∀ p ∈ dbKeys localDB, dictLookup localDB p = dictLookup cloudDB p) := by
  classical
  have hfirst : prepare_update required_only localDB cloudDB = .error .noUpdate ↔
      required_only = true ∧
        (compare_databases localDB cloudDB).unique_files_cloud_db ∪
          badFilePaths (compare_databases localDB cloudDB) = ∅ ∧
        (compare_databases localDB cloudDB).unique_files_local_db = ∅ := by
    unfold prepare_update
    constructor
    · intro h
      by_cases hc : required_only = true ∧
          (if required_only then
            (compare_databases localDB cloudDB).unique_files_cloud_db ∪
              badFilePaths (compare_databases localDB cloudDB)
          else dbKeys cloudDB) = ∅ ∧
          (compare_databases localDB cloudDB).unique_files_local_db = ∅
      · obtain ⟨h1, h2, h3⟩ := hc
        rw [if_pos h1] at h2
        exact ⟨h1, h2, h3⟩
      · rw [if_neg hc] at h
        exact absurd h (by simp)
    · intro ⟨h1, h2, h3⟩
      rw [if_pos ⟨h1, by rw [if_pos h1]; exact h2, h3⟩]
  refine ⟨hfirst, hfirst.trans ?_⟩
  rw [unique_cloud_eq, unique_local_eq]
  rw [show badFilePaths (compare_databases localDB cloudDB) =
    (compare_databases localDB cloudDB).bad_files.image Prod.fst from rfl]
  rw [bad_files_paths]
  constructor
  · intro ⟨h1, h2, h3⟩
    rw [Finset.union_eq_empty] at h2
    rw [Finset.sdiff_eq_empty_iff_subset] at h3
    have hsub : dbKeys cloudDB ⊆ dbKeys localDB :=
      Finset.sdiff_eq_empty_iff_subset.mp h2.1
    have hkeys : dbKeys localDB = dbKeys cloudDB :=
      Finset.Subset.antisymm h3 hsub
    refine ⟨h1, hkeys, ?_⟩
    intro p hp
    have hmem : p ∈ dbKeys localDB ∩ dbKeys cloudDB := by
      rw [Finset.mem_inter, ← hkeys]
      exact ⟨hp, hp⟩
    by_contra hne
    have : p ∈ (dbKeys localDB ∩ dbKeys cloudDB).filter
        (fun p => dictLookup localDB p ≠ dictLookup cloudDB p) :=
      Finset.mem_filter.mpr ⟨hmem, hne⟩
    rw [h2.2] at this
    exact absurd this (Finset.not_mem_empty p)
  · intro ⟨h1, h2, h3⟩
    refine ⟨h1, ?_, ?_⟩
    · rw [Finset.union_eq_empty]
      constructor
      · rw [Finset.sdiff_eq_empty_iff_subset, h2]
      · rw [Finset.filter_eq_empty_iff]
        intro p hp
        rw [Finset.mem_inter] at hp
        simp only [ne_eq, not_not]
        exact h3 p hp.1
    · rw [Finset.sdiff_eq_empty_iff_subset, h2]

/-! ## File hashing (Hasher.create_hash)

The digest primitive is hashlib.sha256; it is not part of this repository,
so it is modelled here from its contract (FIPS 180-4 SHA-256 over the
concatenation of all bytes fed to update, rendered as lowercase hex by
hexdigest).  Bytes are numbers below 256. -/

/-- Word arithmetic is modulo 2 to the 32. -/
def wordMod : Nat := 4294967296

/-- Addition of two 32-bit words. -/
def add32 (a b : Nat) : Nat := (a + b) % wordMod

/-- Right rotation of a 32-bit word. -/
def rotr32 (x n : Nat) : Nat := ((x >>> n) ||| (x <<< (32 - n))) % wordMod

/-- Bitwise complement of a 32-bit word. -/
def not32 (x : Nat) : Nat := Nat.xor x (wordMod - 1)

def bigSigma0 (x : Nat) : Nat :=
  Nat.xor (Nat.xor (rotr32 x 2) (rotr32 x 13)) (rotr32 x 22)

def bigSigma1 (x : Nat) : Nat :=
  Nat.xor (Nat.xor (rotr32 x 6) (rotr32 x 11)) (rotr32 x 25)

def smallSigma0 (x : Nat) : Nat :=
  Nat.xor (Nat.xor (rotr32 x 7) (rotr32 x 18)) (x >>> 3)

def smallSigma1 (x : Nat) : Nat :=
  Nat.xor (Nat.xor (rotr32 x 17) (rotr32 x 19)) (x >>> 10)

def chFn (x y z : Nat) : Nat :=
  Nat.xor (Nat.land x y) (Nat.land (not32 x) z)

def majFn (x y z : Nat) : Nat :=
  Nat.xor (Nat.xor (Nat.land x y) (Nat.land x z)) (Nat.land y z)

/-- The sixty-four SHA-256 round constants. -/
def sha256K : List Nat :=
  [1116352408, 1899447441, 3049323471, 3921009573,
   961987163, 1508970993, 2453635748, 2870763221,
   3624381080, 310598401, 607225278, 1426881987,
   1925078388, 2162078206, 2614888103, 3248222580,
   3835390401, 4022224774, 264347078, 604807628,
   770255983, 1249150122, 1555081692, 1996064986,
   2554220882, 2821834349, 2952996808, 3210313671,
   3336571891, 3584528711, 113926993, 338241895,
   666307205, 773529912, 1294757372, 1396182291,
   1695183700, 1986661051, 2177026350, 2456956037,
   2730485921, 2820302411, 3259730800, 3345764771,
   3516065817, 3600352804, 4094571909, 275423344,
   430227734, 506948616, 659060556, 883997877,
   958139571, 1322822218, 1537002063, 1747873779,
   1955562222, 2024104815, 2227730452, 2361852424,
   2428436474, 2756734187, 3204031479, 3329325298]

/-- The eight SHA-256 initial hash words. -/
def sha256H0 : List Nat :=
  [1779033703, 3144134277, 1013904242, 2773480762,
   1359893119, 2600822924, 528734635, 1541459225]

/-- Split a byte list into consecutive chunks of size n: the sequence of
nonempty reads the loop file.read(chunk_size) produces before EOF. -/
def chunksOf (n : Nat) : List Nat → List (List Nat)
  | [] => []
  | b :: rest =>
    if h : n = 0 then []
    else (b :: rest).take n :: chunksOf n ((b :: rest).drop n)
termination_by l => l.length
decreasing_by
  simp only [List.length_drop, List.length_cons]
  omega

/-- Big-endian byte rendering of a number on k bytes. -/
def toBytesBE (k n : Nat) : List Nat :=
  (List.range k).map (fun i => (n >>> (8 * (k - 1 - i))) % 256)

/-- SHA-256 message padding: a 128 byte, zeros up to 56 modulo 64, then
the bit length on eight big-endian bytes. -/
def padMessage (msg : List Nat) : List Nat :=
  let padLen := (64 + 56 - (msg.length + 1) % 64) % 64
  msg ++ [128] ++ List.replicate padLen 0 ++ toBytesBE 8 (msg.length * 8)

/-- Big-endian word value of a four-byte chunk. -/
def bytesToWord (bs : List Nat) : Nat :=
  bs.foldl (fun acc b => (acc * 256 + b) % wordMod) 0

/-- The next word of the SHA-256 message schedule. -/
def nextScheduleWord (w : List Nat) : Nat :=
  add32 (add32 (smallSigma1 (w.getD (w.length - 2) 0)) (w.getD (w.length - 7) 0))
    (add32 (smallSigma0 (w.getD (w.length - 15) 0)) (w.getD (w.length - 16) 0))

/-- Extend the sixteen block words to the sixty-four schedule words. -/
def buildSchedule (w0 : List Nat) : List Nat :=
  (List.range 48).foldl (fun w _ => w ++ [nextScheduleWord w]) w0

/-- One SHA-256 round on the eight working words. -/
def roundStep (st : List Nat) (kw : Nat × Nat) : List Nat :=
  let a := st.getD 0 0
  let b := st.getD 1 0
  let c := st.getD 2 0
  let d := st.getD 3 0
  let e := st.getD 4 0
  let f := st.getD 5 0
  let g := st.getD 6 0
  let h := st.getD 7 0
  let t1 := add32 h (add32 (bigSigma1 e) (add32 (chFn e f g) (add32 kw.1 kw.2)))
  let t2 := add32 (bigSigma0 a) (majFn a b c)
  [add32 t1 t2, a, b, c, add32 d t1, e, f, g]

/-- Compress one 64-byte block into the hash state. -/
def compressBlock (st : List Nat) (block : List Nat) : List Nat :=
  let ws := buildSchedule ((chunksOf 4 block).map bytesToWord)
  let wrk := (sha256K.zip ws).foldl roundStep st
  (st.zip wrk).map (fun p => add32 p.1 p.2)

/-- The eight digest words of a byte message. -/
def sha256words (msg : List Nat) : List Nat :=
  (chunksOf 64 (padMessage msg)).foldl compressBlock sha256H0

/-- The sixteen lowercase hex digits. -/
def hexChars : List Char := "0123456789abcdef".data

/-- The lowercase hex digit of a value modulo 16. -/
def hexChar (n : Nat) : Char :=
  hexChars.get ⟨n % 16,
    Nat.lt_of_lt_of_le (Nat.mod_lt n (by decide)) (by decide)⟩

/-- Eight lowercase hex digits of one 32-bit word. -/
def wordToHex (w : Nat) : List Char :=
  (List.range 8).map (fun i => hexChar (w >>> (4 * (7 - i))))

/-- hashlib.sha256(msg).hexdigest(): lowercase hex of the digest words. -/
def sha256hex (msg : List Nat) : String :=
  String.mk ((sha256words msg).map wordToHex).flatten

/-- The state of one path in the file system as Hasher.create_hash sees
it: absent (os.path.getsize raises FileNotFoundError), present but
unreadable (open or read raises an OSError), or readable bytes. -/
inductive FileContent where
  | missing : FileContent
  | unreadable : FileContent
  | bytes : List Nat → FileContent
deriving DecidableEq

/-- The kind of underlying OS error wrapped by HashingError. -/
inductive OSErrorKind where
  | fileNotFound : OSErrorKind
  | ioError : OSErrorKind
deriving DecidableEq

/-- hashing.HashingError, raised from the underlying error. -/
structure HashingError where
  cause : OSErrorKind
  path : String
deriving DecidableEq

/-- Chunk size selection of Hasher.create_hash: 4096 bytes, widened to
8192 for files above the 1 GB threshold. -/
def chunkSizeFor (file_size : Nat) : Nat :=
  if file_size > 1000000000 then 8192 else 4096

/-- The digest computed by the chunked read loop of Hasher.create_hash:
each read chunk is fed to hasher.update, whose state is the byte list fed
so far, and hexdigest is taken at EOF. -/
def chunkedDigest (chunk_size : Nat) (content : List Nat) : String :=
  sha256hex ((chunksOf chunk_size content).foldl (fun fed chunk => fed ++ chunk) [])

/-- Hasher.create_hash: read the file size, pick the chunk size, run the
chunked digest loop, and wrap any underlying error in a HashingError. -/
def create_hash (fs : String → FileContent) (file_path : String) :
    Except HashingError String :=
  match fs file_path with
  | .missing => .error { cause := .fileNotFound, path := file_path }
  | .unreadable => .error { cause := .ioError, path := file_path }
  | .bytes content => .ok (chunkedDigest (chunkSizeFor content.length) content)

theorem foldl_append_eq_join (ls : List (List Nat)) (acc : List Nat) :
    ls.foldl (fun a c => a ++ c) acc = acc ++ ls.flatten := by
  induction ls generalizing acc with
  | nil => simp
  | cons hd tl ih => simp [ih, List.append_assoc]

theorem chunksOf_join (n : Nat) (hn : 0 < n) (l : List Nat) :
    (chunksOf n l).flatten = l := by
  have H : ∀ (k : Nat) (l : List Nat), l.length ≤ k → (chunksOf n l).flatten = l := by
    intro k
    induction k with
    | zero =>
      intro l hl
      have hnil : l = [] := List.eq_nil_of_length_eq_zero (Nat.le_zero.mp hl)
      subst hnil
      simp [chunksOf]
    | succ k ih =>
      intro l hl
      cases l with
      | nil => simp [chunksOf]
      | cons b rest =>
        rw [chunksOf, dif_neg (Nat.pos_iff_ne_zero.mp hn)]
        rw [List.flatten_cons, ih _ (by simp at hl ⊢; omega)]
        exact List.take_append_drop n (b :: rest)
  exact H l.length l (Nat.le_refl _)

theorem chunkedDigest_eq (n : Nat) (hn : 0 < n) (content : List Nat) :
    chunkedDigest n content = sha256hex content := by
  rw [chunkedDigest, foldl_append_eq_join, List.nil_append, chunksOf_join n hn]

theorem chunkSizeFor_pos (file_size : Nat) : 0 < chunkSizeFor file_size := by
  rw [chunkSizeFor]
  split
  · decide
  · decide

theorem hexChar_mem (n : Nat) : hexChar n ∈ hexChars := List.get_mem _ _ _

/-- C6: for every readable file create_hash returns the lowercase hex
SHA-256 digest of the full byte content; the chunked read loop at any
positive chunk size, 4096 and 8192 included, produces the digest of the
whole content, so the chosen chunk size does not affect the fingerprint,
and every character of the digest is a lowercase hex digit. -/
theorem create_hash_full_content_digest (content : List Nat) (c1 c2 : Nat)
    (h1 : 0 < c1) (h2 : 0 < c2) :
    chunkedDigest c1 content = sha256hex content ∧
    chunkedDigest c1 content = chunkedDigest c2 content ∧
    (∀ fs file_path, fs file_path = .bytes content →
      create_hash fs file_path = .ok (sha256hex content)) ∧
    (∀ ch ∈ (sha256hex content).data, ch ∈ hexChars) := by
  refine ⟨chunkedDigest_eq c1 h1 content, ?_, ?_, ?_⟩
  · rw [chunkedDigest_eq c1 h1 content, chunkedDigest_eq c2 h2 content]
  · intro fs file_path hfs
    rw [create_hash, hfs]
    show Except.ok (chunkedDigest (chunkSizeFor content.length) content) = _
    rw [chunkedDigest_eq _ (chunkSizeFor_pos content.length) content]
  · intro ch hch
    rw [sha256hex] at hch
    simp only [String.data] at hch
    rw [List.mem_flatten] at hch
    obtain ⟨l, hl, hchl⟩ := hch
    rw [List.mem_map] at hl
    obtain ⟨w, _, hw⟩ := hl
    subst hw
    rw [wordToHex, List.mem_map] at hchl
    obtain ⟨i, _, hi⟩ := hchl
    subst hi
    exact hexChar_mem _

/-- Witness for C6 with content [97, 98] and chunk sizes 1 and 2. -/
theorem create_hash_full_content_digest_witness :
    chunkedDigest 1 [97, 98] = sha256hex [97, 98] ∧
    chunkedDigest 1 [97, 98] = chunkedDigest 2 [97, 98] ∧
    (∀ fs file_path, fs file_path = .bytes [97, 98] →
      create_hash fs file_path = .ok (sha256hex [97, 98])) ∧
    (∀ ch ∈ (sha256hex [97, 98]).data, ch ∈ hexChars) :=
  create_hash_full_content_digest [97, 98] 1 2 (by decide) (by decide)

theorem roundStep_length (st : List Nat) (kw : Nat × Nat) :
    (roundStep st kw).length = 8 := by
  simp [roundStep]

theorem foldl_roundStep_length (l : List (Nat × Nat)) (st : List Nat)
    (h : st.length = 8) : (l.foldl roundStep st).length = 8 := by
  induction l generalizing st with
  | nil => exact h
  | cons hd tl ih => exact ih _ (roundStep_length _ _)

theorem compressBlock_length (st block : List Nat) (h : st.length = 8) :
    (compressBlock st block).length = 8 := by
  rw [compressBlock]
  simp only [List.length_map, List.length_zip]
  rw [h, foldl_roundStep_length _ _ h]
  simp

theorem sha256words_length (msg : List Nat) : (sha256words msg).length = 8 := by
  rw [sha256words]
  have H : ∀ (bs : List (List Nat)) (st : List Nat), st.length = 8 →
      (bs.foldl compressBlock st).length = 8 := by
    intro bs
    induction bs with
    | nil => intro st h; exact h
    | cons hd tl ih => intro st h; exact ih _ (compressBlock_length _ _ h)
  exact H _ sha256H0 (by decide)

theorem wordToHex_length (w : Nat) : (wordToHex w).length = 8 := by
  simp [wordToHex]

theorem sha256hex_length (msg : List Nat) : (sha256hex msg).length = 64 := by
  rw [sha256hex]
  show (((sha256words msg).map wordToHex).flatten).length = 64
  rw [List.length_flatten, List.map_map]
  have hfn : List.length ∘ wordToHex = fun (_ : Nat) => 8 :=
    funext fun w => wordToHex_length w
  rw [hfn, List.map_const', List.sum_replicate, sha256words_length]
  simp

/-- C7: create_hash fails with a HashingError wrapping the underlying
error exactly on a missing or unreadable file, and a successful result is
a 64-character digest, never the sentinel "?". -/
theorem create_hash_error_handling (fs : String → FileContent)
    (file_path : String) :
    (fs file_path = .missing →
      create_hash fs file_path =
        .error { cause := .fileNotFound, path := file_path }) ∧
    (fs file_path = .unreadable →
      create_hash fs file_path =
        .error { cause := .ioError, path := file_path }) ∧
    ((∃ e, create_hash fs file_path = .error e) ↔
      fs file_path = .missing ∨ fs file_path = .unreadable) ∧
    (∀ s, create_hash fs file_path = .ok s → s.length = 64 ∧ s ≠ "?") := by
  refine ⟨?_, ?_, ?_, ?_⟩
  · intro h
    rw [create_hash, h]
  · intro h
    rw [create_hash, h]
  · cases hfs : fs file_path with
    | missing => simp [create_hash, hfs]
    | unreadable => simp [create_hash, hfs]
    | bytes content => simp [create_hash, hfs]
  · intro s hs
    cases hfs : fs file_path with
    | missing => rw [create_hash, hfs] at hs; exact absurd hs (by simp)
    | unreadable => rw [create_hash, hfs] at hs; exact absurd hs (by simp)
    | bytes content =>
      rw [create_hash, hfs] at hs
      simp only [Except.ok.injEq] at hs
      subst hs
      rw [chunkedDigest_eq _ (chunkSizeFor_pos content.length) content]
      refine ⟨sha256hex_length content, ?_⟩
      intro hq
      have : (sha256hex content).length = 64 := sha256hex_length content
      rw [hq] at this
      exact absurd this (by decide)

/-- Witness for C7: a file system with one missing path, whose lookup
result discharges the first hypothesis of the theorem. -/
theorem create_hash_error_handling_witness :
    create_hash (fun _ => FileContent.missing) "gone" =
      .error { cause := .fileNotFound, path := "gone" } :=
  (create_hash_error_handling (fun _ => FileContent.missing) "gone").1 rfl

/-! ## Manifest-relative paths (Hasher._create_path_and_hash)

The computation is file_path.split(self._path_basename)[-1], normalized
with helper.normalize_paths, then lstrip("/").  Paths are modelled as
character lists. -/

/-- Python str.split with a nonempty separator: cut at every
non-overlapping occurrence, scanning left to right.  A separator that
never occurs yields the one-element list holding the whole input. -/
def pySplit (sep : List Char) : List Char → List (List Char)
  | [] => [[]]
  | c :: rest =>
    if h : sep ≠ [] ∧ sep.isPrefixOf (c :: rest) then
      [] :: pySplit sep ((c :: rest).drop sep.length)
    else
      match pySplit sep rest with
      | [] => [[c]]
      | seg :: segs => (c :: seg) :: segs
termination_by l => l.length
decreasing_by
  · have hpos : 0 < sep.length := List.length_pos.mpr h.1
    simp only [List.length_drop, List.length_cons]
    omega
  · simp only [List.length_cons]
    omega

/-- True when sep occurs as a contiguous substring. -/
def containsSub (sep : List Char) : List Char → Bool
  | [] => sep.isEmpty
  | c :: rest => sep.isPrefixOf (c :: rest) || containsSub sep rest

/-- helper.normalize_paths on one path: replace every backslash with a
forward slash. -/
def normalize_paths (p : List Char) : List Char :=
  p.map (fun c => if c = '\\' then '/' else c)

/-- Python lstrip("/"): drop the leading forward slashes. -/
def lstripSlash (p : List Char) : List Char :=
  p.dropWhile (fun c => c = '/')

/-- The relative path computed by Hasher._create_path_and_hash:
file_path.split(basename)[-1], separators normalized, leading slashes
stripped.  The source raises nothing here: str.split never fails. -/
def create_relative_path (basename file_path : List Char) : List Char :=
  lstripSlash (normalize_paths ((pySplit basename file_path).getLastD []))

/-- String-level wrapper of create_relative_path. -/
def create_relative_path_str (basename file_path : String) : String :=
  String.mk (create_relative_path basename.data file_path.data)

theorem getLastD_default_irrel {α : Type} (l : List α) (hne : l ≠ [])
    (d1 d2 : α) : l.getLastD d1 = l.getLastD d2 := by
  cases l with
  | nil => exact absurd rfl hne
  | cons a t => rw [List.getLastD_cons, List.getLastD_cons]

/-- Combined behaviour of pySplit: the result is never empty; with no
occurrence of the separator it is the whole input; with an occurrence it
has at least two segments and the last one is the tail of the input after
a full occurrence of the separator. -/
theorem pySplit_spec (sep : List Char) (hsep : sep ≠ []) (l : List Char) :
    pySplit sep l ≠ [] ∧
    (containsSub sep l = false → pySplit sep l = [l]) ∧
    (containsSub sep l = true → 2 ≤ (pySplit sep l).length ∧
      sep ++ (pySplit sep l).getLastD [] <:+ l) := by
  have H : ∀ (k : Nat) (l : List Char), l.length ≤ k →
      pySplit sep l ≠ [] ∧
      (containsSub sep l = false → pySplit sep l = [l]) ∧
      (containsSub sep l = true → 2 ≤ (pySplit sep l).length ∧
        sep ++ (pySplit sep l).getLastD [] <:+ l) := by
    intro k
    induction k with
    | zero =>
      intro l hl
      have hnil : l = [] := List.eq_nil_of_length_eq_zero (Nat.le_zero.mp hl)
      subst hnil
      refine ⟨by simp [pySplit], fun _ => by simp [pySplit], fun hc => ?_⟩
      rw [containsSub, List.isEmpty_iff] at hc
      exact absurd hc hsep
    | succ k ih =>
      intro l hl
      cases l with
      | nil =>
        refine ⟨by simp [pySplit], fun _ => by simp [pySplit], fun hc => ?_⟩
        rw [containsSub, List.isEmpty_iff] at hc
        exact absurd hc hsep
      | cons c rest =>
        by_cases hpre : sep.isPrefixOf (c :: rest) = true
        · rw [pySplit, dif_pos ⟨hsep, hpre⟩]
          have hconts : containsSub sep (c :: rest) = true := by
            rw [containsSub, hpre, Bool.true_or]
          have hprefix : sep <+: c :: rest :=
            List.isPrefixOf_iff_prefix.mp hpre
          obtain ⟨tail, htail⟩ := hprefix
          have hdrop : (c :: rest).drop sep.length = tail := by
            rw [← htail, List.drop_left]
          have hlen : tail.length ≤ k := by
            have := congrArg List.length htail
            simp only [List.length_append, List.length_cons] at this
            have hpos : 0 < sep.length := List.length_pos.mpr hsep
            simp only [List.length_cons] at hl
            omega
          obtain ⟨hne, hnc, hcc⟩ := ih tail hlen
          rw [hdrop]
          refine ⟨by simp, fun hc => absurd hc (by rw [hconts]; simp), fun _ => ?_⟩
          constructor
          · have := List.length_pos.mpr hne
            simp only [List.length_cons]
            omega
          · rw [List.getLastD_cons]
            rw [getLastD_default_irrel (pySplit sep tail) hne [] ]
            by_cases hct : containsSub sep tail = true
            · obtain ⟨_, hsfx⟩ := hcc hct
              refine hsfx.trans ?_
              rw [← htail]
              exact (List.suffix_append sep tail)
            · rw [hnc (Bool.eq_false_iff.mpr hct)]
              show sep ++ [tail].getLastD [] <:+ c :: rest
              rw [show [tail].getLastD ([] : List Char) = tail from rfl, ← htail]
        · have hstep : pySplit sep (c :: rest) =
              match pySplit sep rest with
              | [] => [[c]]
              | seg :: segs => (c :: seg) :: segs := by
            rw [pySplit, dif_neg]
            intro hcon
            exact hpre hcon.2
          have hcr : containsSub sep (c :: rest) = containsSub sep rest := by
            rw [containsSub, Bool.eq_false_iff.mpr hpre, Bool.false_or]
          have hlen : rest.length ≤ k := by
            simp only [List.length_cons] at hl
            omega
          obtain ⟨hne, hnc, hcc⟩ := ih rest hlen
          cases hps : pySplit sep rest with
          | nil => exact absurd hps hne
          | cons seg segs =>
            rw [hps] at hstep
            refine ⟨by rw [hstep]; simp, fun hc => ?_, fun hc => ?_⟩
            · rw [hcr] at hc
              have := hnc hc
              rw [hps] at this
              simp only [List.cons.injEq] at this
              rw [hstep, this.1, this.2]
            · rw [hcr] at hc
              obtain ⟨hlen2, hsfx⟩ := hcc hc
              rw [hps] at hlen2 hsfx
              cases segs with
              | nil => simp at hlen2
              | cons s2 ss =>
                constructor
                · rw [hstep]
                  simp only [List.length_cons]
                  omega
                · rw [hstep, List.getLastD_cons,
                    getLastD_default_irrel (s2 :: ss) (by simp) (c :: seg) []]
                  rw [List.getLastD_cons,
                    getLastD_default_irrel (s2 :: ss) (by simp) seg []] at hsfx
                  exact hsfx.trans (List.suffix_cons c rest)
  exact H l.length l (Nat.le_refl _)

/-- C8 counterexample: with project root basename "proj" and a file path
in which it does not occur, the relative-path computation returns a
normal stripped path; it raises nothing, and the source defines no
PathResolutionError at all. -/
theorem create_relative_path_counterexample :
    containsSub "proj".data "/other/a.py".data = false ∧
    create_relative_path_str "proj" "/other/a.py" = "other/a.py" := by
  constructor
  · decide
  · have h := (pySplit_spec "proj".data (by decide) "/other/a.py".data).2.1
      (by decide)
    simp only [create_relative_path_str, create_relative_path, h]
    decide

/-- C8 amended: the relative-path computation strips everything up to and
including an occurrence of the project root's directory name (the last
occurrence consumed by the left-to-right split), normalizes separators to
the forward slash, and strips leading slashes; when the root name does
not occur in the path it does not fail, returning instead the whole path
normalized and stripped of leading slashes. -/
theorem create_relative_path_spec (basename file_path : List Char)
    (hsep : basename ≠ []) :
    (containsSub basename file_path = false →
      create_relative_path basename file_path =
        lstripSlash (normalize_paths file_path)) ∧
    (containsSub basename file_path = true →
      ∃ tail, create_relative_path basename file_path =
          lstripSlash (normalize_paths tail) ∧
        basename ++ tail <:+ file_path) := by
  obtain ⟨hne, hnc, hcc⟩ := pySplit_spec basename hsep file_path
  constructor
  · intro hc
    rw [create_relative_path, hnc hc]
    rfl
  · intro hc
    obtain ⟨_, hsfx⟩ := hcc hc
    exact ⟨(pySplit basename file_path).getLastD [], rfl, hsfx⟩

/-- Witness for C8 amended at basename "proj" and path "/home/proj/a.py". -/
theorem create_relative_path_spec_witness :
    (containsSub "proj".data "/home/proj/a.py".data = false →
      create_relative_path "proj".data "/home/proj/a.py".data =
        lstripSlash (normalize_paths "/home/proj/a.py".data)) ∧
    (containsSub "proj".data "/home/proj/a.py".data = true →
      ∃ tail, create_relative_path "proj".data "/home/proj/a.py".data =
          lstripSlash (normalize_paths tail) ∧
        "proj".data ++ tail <:+ "/home/proj/a.py".data) :=
  create_relative_path_spec "proj".data "/home/proj/a.py".data (by decide)

/-! ## File updater (pyupgrader/utilities/file_updater.py)

merge_files and delete_files mutate the install through os and shutil
primitives; the file system is modelled as a list of files with contents
and a list of directories, both keyed by component paths, and the os and
shutil primitives are modelled from their documented behaviour. -/

/-- A file system path, as its list of components. -/
abbrev FsPath := List String

/-- A file system state: the files with their contents (contents as plain
numbers) and the directories. -/
structure FS where
  files : List (FsPath × Nat)
  dirs : List FsPath
deriving DecidableEq

/-- The OS error kinds the updater primitives can raise. -/
inductive UpdOSError where
  | fileNotFound : UpdOSError
  | isADirectory : UpdOSError
  | notADirectory : UpdOSError
deriving DecidableEq

/-- file_updater.MergeError and file_updater.DeleteError, each wrapping
the underlying error that ended its loop. -/
inductive UpdaterError where
  | mergeError : UpdOSError → UpdaterError
  | deleteError : UpdOSError → UpdaterError
deriving DecidableEq

/-- Whether a path carries a file. -/
def isFile (fs : FS) (p : FsPath) : Bool :=
  fs.files.any (fun e => e.1 == p)

/-- Whether a path is a directory. -/
def isDir (fs : FS) (p : FsPath) : Bool :=
  fs.dirs.any (fun q => q == p)

/-- os.path.exists: a file or a directory. -/
def existsPath (fs : FS) (p : FsPath) : Bool :=
  isFile fs p || isDir fs p

/-- os.remove: drop the file; raises IsADirectoryError on a directory and
FileNotFoundError on a missing path. -/
def osRemove (fs : FS) (p : FsPath) : Except UpdOSError FS :=
  if isFile fs p then
    .ok { fs with files := fs.files.filter (fun e => !(e.1 == p)) }
  else if isDir fs p then .error .isADirectory
  else .error .fileNotFound

/-- os.makedirs with exist_ok=True: create the directory and all its
ancestors, keeping those that already exist. -/
def makedirs (fs : FS) (d : FsPath) : FS :=
  { fs with dirs := fs.dirs ++ d.inits.filter (fun q => !fs.dirs.contains q) }

/-- The contents found at a source path. -/
def contentsOf (fs : FS) (p : FsPath) : List Nat :=
  (fs.files.filter (fun e => e.1 == p)).map Prod.snd

/-- shutil.copy: raises on a missing source; otherwise the destination
takes the source contents, replacing any existing destination entry. -/
def shutilCopy (fs : FS) (src dst : FsPath) : Except UpdOSError FS :=
  if isFile fs src then
    .ok { fs with files :=
      fs.files.filter (fun e => !(e.1 == dst)) ++
        (contentsOf fs src).map (fun c => (dst, c)) }
  else .error .fileNotFound

/-- Immediate child relation below a directory. -/
def childOf (d p : FsPath) : Bool :=
  !p.isEmpty && (p.dropLast == d)

/-- Whether os.listdir of the directory would return any entry. -/
def hasChildren (fs : FS) (d : FsPath) : Bool :=
  fs.files.any (fun e => childOf d e.1) || fs.dirs.any (fun q => childOf d q)

/-- The emptiness test `not os.listdir(dir_path)`: os.listdir raises
FileNotFoundError on a missing path and NotADirectoryError on a file. -/
def listdirIsEmpty (fs : FS) (d : FsPath) : Except UpdOSError Bool :=
  if isDir fs d then .ok (!hasChildren fs d)
  else if isFile fs d then .error .notADirectory
  else .error .fileNotFound

/-- os.rmdir of a directory known to be empty. -/
def rmdir (fs : FS) (d : FsPath) : FS :=
  { fs with dirs := fs.dirs.filter (fun q => !(q == d)) }

/-- One iteration of the merge_files loop: ensure the destination parent
directory exists, remove any existing destination, copy the staged file
over it. -/
def mergeOne (downloads_dir project_path : FsPath) (fs : FS)
    (file : FsPath) : Except UpdOSError FS := do
  let source := downloads_dir ++ file
  let destination := project_path ++ file
  let fs1 := makedirs fs destination.dropLast
  let fs2 ← if existsPath fs1 destination then osRemove fs1 destination
            else pure fs1
  shutilCopy fs2 source destination

/-- file_updater.merge_files: the loop over changed_files, any raised
error rewrapped as a MergeError. -/
def merge_files (changed_files : List FsPath) (project_path : FsPath)
    (downloads_dir : FsPath) (fs : FS) : Except UpdaterError FS :=
  (changed_files.foldlM (mergeOne downloads_dir project_path) fs).mapError
    UpdaterError.mergeError

/-- One iteration of the delete_files loop: remove the destination if it
exists, then remove its parent directory when os.listdir finds it empty. -/
def deleteOne (project_path : FsPath) (fs : FS) (file : FsPath) :
    Except UpdOSError FS := do
  let destination := project_path ++ file
  let fs1 ← if existsPath fs destination then osRemove fs destination
            else pure fs
  let dir_path := destination.dropLast
  let dirEmpty ← listdirIsEmpty fs1 dir_path
  if dirEmpty then pure (rmdir fs1 dir_path) else pure fs1

/-- file_updater.delete_files: the loop over del_files, any raised error
rewrapped as a DeleteError. -/
def delete_files (del_files : List FsPath) (project_path : FsPath)
    (fs : FS) : Except UpdaterError FS :=
  (del_files.foldlM (deleteOne project_path) fs).mapError
    UpdaterError.deleteError

/-- Steps 2 and 3 of applying an update actions file: merge then delete. -/
def applyMergeDelete (changed del : List FsPath)
    (project_path downloads_dir : FsPath) (fs : FS) :
    Except UpdaterError FS := do
  let fs1 ← merge_files changed project_path downloads_dir fs
  delete_files del project_path fs1

/-- C2: the delete step is not safe to repeat.  On the descriptor with
merge list [m], delete list [d/a], project root app and staging root dl,
over an install where directory app/d holds exactly the file a: the first
application succeeds, removing app/d/a and then the emptied directory
app/d; the second application of the same descriptor fails with a
DeleteError, because os.listdir is called on the directory app/d that the
first application removed.  A single application can fail the same way:
deleting d/a and then d/b when d held only a crashes after the loop
removes the emptied directory d. -/
theorem apply_actions_twice_delete_error :
    applyMergeDelete [["m"]] [["d", "a"]] ["app"] ["dl"]
        ⟨[(["dl", "m"], 7), (["app", "d", "a"], 0)],
         [[], ["app"], ["app", "d"], ["dl"]]⟩ =
      .ok ⟨[(["dl", "m"], 7), (["app", "m"], 7)], [[], ["app"], ["dl"]]⟩ ∧
    applyMergeDelete [["m"]] [["d", "a"]] ["app"] ["dl"]
        ⟨[(["dl", "m"], 7), (["app", "m"], 7)], [[], ["app"], ["dl"]]⟩ =
      .error (.deleteError .fileNotFound) ∧
    delete_files [["d", "a"], ["d", "b"]] ["app"]
        ⟨[(["app", "d", "a"], 0)], [[], ["app"], ["app", "d"]]⟩ =
      .error (.deleteError .fileNotFound) := by
  refine ⟨?_, ?_, ?_⟩
  · decide
  · decide
  · decide

end PyUpgrader
